import Mathlib

/-!
Verification of the `embc` python stream stack: a shallow embedding of
`src/pyembc/stream/transport.py`, `src/pyembc/stream/pubsub.py` and
`src/pyembc/stream/pubsub_port.py`, together with theorems about
segmentation/reassembly, connection-event synthesis, and the PubSub
topic tree.

Byte buffers are embedded as `List Nat` (each element a byte value);
Python `bytes`/`numpy` slicing becomes `List.take`/`List.drop`, and
machine integers are `Nat` with explicit masking where the source masks.
-/

namespace Embc

/-! ### Constants and events from `data_link`

`pyembc/stream/data_link.py` is not among the sources; only its importers
are.  The constants and the event enumeration are therefore modelled from
the spec. -/

/-- Modelled from the spec: `data_link.py` is missing from the sources;
§6 Constants gives `PORTS_MAX = 31`. -/
def PORTS_MAX : Nat := 31

/-- Modelled from the spec: `data_link.py` is missing from the sources;
§6 Constants gives `PAYLOAD_MAX = 256`. -/
def PAYLOAD_MAX : Nat := 256

/-- Modelled from the spec: `data_link.py` is missing from the sources;
§4.2 "Connection events" lists `RX_RESET_REQUEST`, `TX_DISCONNECTED`,
`TX_CONNECTED` as the events emitted to the Transport. -/
inductive Event : Type where
  | tx_connected : Event
  | tx_disconnected : Event
  | rx_reset_request : Event
deriving DecidableEq, Repr

/-! ### Transport (`src/pyembc/stream/transport.py`)

`Transport.send` (lines 148-166) segments a message and hands each
fragment to `send_fn(metadata, payload)`; we embed it as the list of
`(metadata, payload)` pairs it emits.  `_Port.on_recv` (lines 115-128)
is stateful over the reassembly buffer `self._msg : list`, embedded as
explicit state passing of `List (List Nat)`. -/

/-- `metadata = (port_data << 8) | port_id | (seq << 6)` from
`Transport.send` line 164. -/
def metadataOf (port_data port_id seq : Nat) : Nat :=
  ((port_data <<< 8) ||| port_id) ||| (seq <<< 6)

/-- The `while len(msg)` loop of `Transport.send` (lines 156-166).
`seq` enters as `2` (START); a final fragment sets `seq |= 1`; after the
first fragment `seq = 0` (MIDDLE). -/
def sendLoop (port_id port_data seq : Nat) (msg : List Nat) :
    List (Nat × List Nat) :=
  if msg.length = 0 then []
  else if PAYLOAD_MAX < msg.length then
    (metadataOf port_data port_id seq, msg.take PAYLOAD_MAX) ::
      sendLoop port_id port_data 0 (msg.drop PAYLOAD_MAX)
  else
    [(metadataOf port_data port_id (seq ||| 1), msg)]
termination_by msg.length
decreasing_by
  simp only [List.length_drop]
  simp only [PAYLOAD_MAX] at *
  omega

/-- `Transport.send(port_id, port_data, msg)` (lines 148-166): validates
`0 <= port_id <= PORTS_MAX` (else `ValueError`), masks
`port_data & 0xffff`, then runs the segmentation loop with `seq = 2`.
The emitted fragments are returned in order. -/
def Transport.send (port_id port_data : Nat) (msg : List Nat) :
    Except String (List (Nat × List Nat)) :=
  if port_id ≤ PORTS_MAX then
    .ok (sendLoop port_id (port_data &&& 0xffff) 2 msg)
  else
    .error "invalid port"

/-- `_Port.on_recv(metadata, msg)` (lines 115-128).  State is the
reassembly buffer `self._msg`; the result is the new buffer plus the
`(port_data, message)` delivered to `self.port.on_recv`, if any.
The `log.warning` calls have no effect on state and are dropped. -/
def Port.on_recv (buf : List (List Nat)) (metadata : Nat) (msg : List Nat) :
    List (List Nat) × Option (Nat × List Nat) :=
  let seq := (metadata >>> 6) &&& 0x03
  let port_data := (metadata >>> 8) &&& 0xffff
  let buf1 := if seq &&& 2 ≠ 0 ∧ buf ≠ [] then [] else buf
  let buf2 := buf1 ++ [msg]
  if seq &&& 1 ≠ 0 then ([], some (port_data, buf2.flatten))
  else (buf2, none)

/-- Feeds a list of fragments to `_Port.on_recv` in order, collecting
every delivered message. -/
def Port.recvList (buf : List (List Nat)) :
    List (Nat × List Nat) → List (List Nat) × List (Nat × List Nat)
  | [] => (buf, [])
  | (metadata, payload) :: rest =>
    let r := Port.on_recv buf metadata payload
    let rr := Port.recvList r.1 rest
    (rr.1, r.2.toList ++ rr.2)

/-- `Transport.on_recv` (lines 144-146) dispatches on
`port_id = metadata & PORTS_MAX`. -/
def Transport.recv_port_id (metadata : Nat) : Nat :=
  metadata &&& PORTS_MAX

/-- `Transport.__init__` sets `self._last_tx_event = Event.TX_DISCONNECTED`
(line 135). -/
def Transport.initial_tx_event : Event := .tx_disconnected

/-- `Transport.on_event` (lines 138-142) records the event in
`_last_tx_event` only when it is `TX_CONNECTED` or `TX_DISCONNECTED`
(the event is also broadcast to every port, which does not affect
`_last_tx_event`). -/
def Transport.on_event_last (last event : Event) : Event :=
  if event = .tx_connected ∨ event = .tx_disconnected then event else last

/-- `_last_tx_event` after a sequence of `Transport.on_event` calls on a
fresh `Transport`. -/
def Transport.last_tx_event_after (events : List Event) : Event :=
  events.foldl Transport.on_event_last Transport.initial_tx_event

/-- `Transport.register_port` (lines 168-178) stores the port object and
then calls `self._ports[port_id].on_event(self._last_tx_event)`: the
event synthesized to the freshly registered port is exactly
`_last_tx_event`. -/
def Transport.register_port_event (last_tx_event : Event) : Event :=
  last_tx_event

/-! ### Arithmetic characterization of the metadata word -/

theorem metadataOf_eq (port_data port_id seq : Nat)
    (hpid : port_id < 64) (hseq : seq < 4) :
    metadataOf port_data port_id seq = port_data * 256 + seq * 64 + port_id := by
  unfold metadataOf
  rw [Nat.shiftLeft_eq, Nat.shiftLeft_eq, Nat.lor_assoc]
  have h1 : port_id ||| seq * 2 ^ 6 = 2 ^ 6 * seq + port_id := by
    rw [Nat.lor_comm, Nat.mul_comm seq (2 ^ 6)]
    exact (Nat.mul_add_lt_is_or hpid seq).symm
  rw [h1]
  have h2 : 2 ^ 6 * seq + port_id < 2 ^ 8 := by omega
  rw [Nat.mul_comm port_data (2 ^ 8), ← Nat.mul_add_lt_is_or h2 port_data]
  omega

theorem metadata_decode_seq (port_data port_id seq : Nat)
    (hpid : port_id < 64) (hseq : seq < 4) :
    (metadataOf port_data port_id seq >>> 6) &&& 0x03 = seq := by
  rw [metadataOf_eq port_data port_id seq hpid hseq,
    Nat.shiftRight_eq_div_pow]
  have h : (0x03 : Nat) = 2 ^ 2 - 1 := by norm_num
  rw [h, Nat.and_pow_two_sub_one_eq_mod]
  omega

theorem metadata_decode_port_data (port_data port_id seq : Nat)
    (hpid : port_id < 64) (hseq : seq < 4) (hpd : port_data < 65536) :
    (metadataOf port_data port_id seq >>> 8) &&& 0xffff = port_data := by
  rw [metadataOf_eq port_data port_id seq hpid hseq,
    Nat.shiftRight_eq_div_pow]
  have h : (0xffff : Nat) = 2 ^ 16 - 1 := by norm_num
  rw [h, Nat.and_pow_two_sub_one_eq_mod]
  omega

theorem metadata_decode_port_id (port_data port_id seq : Nat)
    (hpid : port_id < 32) (hseq : seq < 4) :
    Transport.recv_port_id (metadataOf port_data port_id seq) = port_id := by
  rw [Transport.recv_port_id, metadataOf_eq port_data port_id seq (by omega) hseq]
  show _ &&& 31 = _
  have h : (31 : Nat) = 2 ^ 5 - 1 := by norm_num
  rw [h, Nat.and_pow_two_sub_one_eq_mod]
  omega

/-! ### Segmentation lemmas -/

theorem sendLoop_length (port_id port_data seq : Nat) (msg : List Nat) :
    (sendLoop port_id port_data seq msg).length =
      (msg.length + (PAYLOAD_MAX - 1)) / PAYLOAD_MAX := by
  unfold sendLoop
  split
  · simp only [List.length_nil]
    simp only [PAYLOAD_MAX]
    omega
  · split
    · have ih := sendLoop_length port_id port_data 0 (msg.drop PAYLOAD_MAX)
      simp only [List.length_cons, ih, List.length_drop]
      simp only [PAYLOAD_MAX] at *
      omega
    · simp only [List.length_cons, List.length_nil]
      simp only [PAYLOAD_MAX] at *
      omega
termination_by msg.length
decreasing_by
  simp only [List.length_drop]
  simp only [PAYLOAD_MAX] at *
  omega

theorem sendLoop_ne_nil (port_id port_data seq : Nat) (msg : List Nat)
    (h : msg ≠ []) : sendLoop port_id port_data seq msg ≠ [] := by
  unfold sendLoop
  split
  · simp_all
  · split <;> simp

/-- Every fragment but the last carries exactly `PAYLOAD_MAX` bytes. -/
theorem sendLoop_dropLast_length (port_id port_data seq : Nat) (msg : List Nat) :
    ∀ f ∈ (sendLoop port_id port_data seq msg).dropLast,
      f.2.length = PAYLOAD_MAX := by
  unfold sendLoop
  split
  · simp
  · split
    · intro f hf
      rename_i hne hlong
      rw [List.dropLast_cons_of_ne_nil
        (sendLoop_ne_nil port_id port_data 0 (msg.drop PAYLOAD_MAX) (by
          intro hd
          have := congrArg List.length hd
          simp only [List.length_drop, List.length_nil] at this
          simp only [PAYLOAD_MAX] at *
          omega))] at hf
      rcases List.mem_cons.mp hf with h | h
      · subst h
        simp only [List.length_take]
        omega
      · exact sendLoop_dropLast_length port_id port_data 0 (msg.drop PAYLOAD_MAX) f h
    · simp
termination_by msg.length
decreasing_by
  simp only [List.length_drop]
  simp only [PAYLOAD_MAX] at *
  omega

/-! ### Reassembly round-trip lemmas -/

/-- After the first fragment, feeding the rest of the segmentation output
(`seq = 0` continuation) to the port reassembler concatenates everything
onto the pending buffer and delivers exactly one message. -/
theorem recvList_sendLoop_cont (port_id port_data : Nat) (msg : List Nat)
    (acc : List (List Nat)) (hpid : port_id ≤ PORTS_MAX)
    (hpd : port_data < 65536) (hmsg : msg ≠ []) :
    Port.recvList acc (sendLoop port_id port_data 0 msg) =
      ([], [(port_data, acc.flatten ++ msg)]) := by
  have hpid' : port_id < 64 := by
    simp only [PORTS_MAX] at hpid
    omega
  unfold sendLoop
  rw [if_neg (by simp_all)]
  split
  · rename_i hlong
    rw [Port.recvList]
    simp only [Port.on_recv,
      metadata_decode_seq port_data port_id 0 hpid' (by omega),
      metadata_decode_port_data port_data port_id 0 hpid' (by omega) hpd]
    norm_num
    rw [recvList_sendLoop_cont port_id port_data (msg.drop PAYLOAD_MAX)
      (acc ++ [msg.take PAYLOAD_MAX]) hpid hpd (by
        intro hd
        have := congrArg List.length hd
        simp only [List.length_drop, List.length_nil] at this
        simp only [PAYLOAD_MAX] at *
        omega)]
    simp
  · rw [Port.recvList]
    simp only [Port.on_recv,
      metadata_decode_seq port_data port_id (0 ||| 1) hpid' (by decide),
      metadata_decode_port_data port_data port_id (0 ||| 1) hpid' (by decide) hpd]
    norm_num [Port.recvList]
termination_by msg.length
decreasing_by
  simp only [List.length_drop]
  simp only [PAYLOAD_MAX] at *
  omega

/-- Feeding the full segmentation output of a non-empty message to the
port reassembler delivers exactly the original message, whatever was
pending in the reassembly buffer beforehand. -/
theorem recvList_sendLoop_start (port_id port_data : Nat) (msg : List Nat)
    (buf : List (List Nat)) (hpid : port_id ≤ PORTS_MAX)
    (hpd : port_data < 65536) (hmsg : msg ≠ []) :
    Port.recvList buf (sendLoop port_id port_data 2 msg) =
      ([], [(port_data, msg)]) := by
  have hpid' : port_id < 64 := by
    simp only [PORTS_MAX] at hpid
    omega
  unfold sendLoop
  rw [if_neg (by simp_all)]
  split
  · rename_i hlong
    rw [Port.recvList]
    simp only [Port.on_recv,
      metadata_decode_seq port_data port_id 2 hpid' (by omega),
      metadata_decode_port_data port_data port_id 2 hpid' (by omega) hpd]
    have hreset : (if (2 : Nat) &&& 2 ≠ 0 ∧ buf ≠ [] then ([] : List (List Nat))
        else buf) ++ [msg.take PAYLOAD_MAX] = [msg.take PAYLOAD_MAX] := by
      rcases eq_or_ne buf [] with hb | hb <;> simp [hb]
    simp only [show ¬((2 : Nat) &&& 1 ≠ 0) from by decide, if_false, hreset]
    rw [recvList_sendLoop_cont port_id port_data (msg.drop PAYLOAD_MAX)
      [msg.take PAYLOAD_MAX] hpid hpd (by
        intro hd
        have := congrArg List.length hd
        simp only [List.length_drop, List.length_nil] at this
        simp only [PAYLOAD_MAX] at *
        omega)]
    simp
  · rw [Port.recvList]
    simp only [Port.on_recv,
      metadata_decode_seq port_data port_id (2 ||| 1) hpid' (by decide),
      metadata_decode_port_data port_data port_id (2 ||| 1) hpid' (by decide) hpd]
    have hreset : (if ((2 : Nat) ||| 1) &&& 2 ≠ 0 ∧ buf ≠ [] then ([] : List (List Nat))
        else buf) ++ [msg] = [msg] := by
      rcases eq_or_ne buf [] with hb | hb <;> simp [hb]
    simp only [hreset, show (((2 : Nat) ||| 1) &&& 1 ≠ 0) = True from by decide,
      if_true, Port.recvList]
    simp

/-! ### Claim C1: segmentation round-trip -/

/-- C1 (counterexample): for the empty message the `while len(msg)` loop
of `Transport.send` never runs, so zero fragments are emitted and nothing
is ever delivered to the receiving port, whereas the claim (with its
length range starting at 0) demands one fragment and one delivered
message for every length `≤ 256`. -/
theorem transport_roundtrip_len0_cex :
    ¬ ∃ frags, Transport.send 2 0x1234 [] = .ok frags ∧ frags.length = 1 ∧
      Port.recvList [] frags = ([], [(0x1234, [])]) := by
  rintro ⟨frags, h1, h2, h3⟩
  have hs : sendLoop 2 (0x1234 &&& 0xffff) 2 [] = [] := by
    unfold sendLoop
    simp
  rw [Transport.send, if_pos (by simp [PORTS_MAX]), hs] at h1
  cases h1
  simp at h2

/-- C1 (amended): for every byte buffer `msg` of length 1..8192 (the
empty buffer produces no fragment at all, see the counterexample) and
every valid `port_id`/`port_data`, `Transport.send` emits exactly
`⌈len/256⌉` fragments, and feeding those fragments in order to the
receiving `_Port.on_recv` delivers exactly one message whose bytes equal
`msg` and whose `port_data` equals the sent `port_data`. -/
theorem transport_roundtrip (port_id port_data : Nat) (msg : List Nat)
    (hport : port_id ≤ PORTS_MAX) (hdata : port_data < 65536)
    (hlen : 1 ≤ msg.length) (hlen8 : msg.length ≤ 8192) :
    ∃ frags, Transport.send port_id port_data msg = .ok frags ∧
      frags.length = (msg.length + (PAYLOAD_MAX - 1)) / PAYLOAD_MAX ∧
      Port.recvList [] frags = ([], [(port_data, msg)]) := by
  have hmask : port_data &&& 0xffff = port_data := by
    have h : (0xffff : Nat) = 2 ^ 16 - 1 := by norm_num
    rw [h, Nat.and_pow_two_sub_one_eq_mod]
    omega
  refine ⟨sendLoop port_id port_data 2 msg, ?_, ?_, ?_⟩
  · rw [Transport.send, if_pos hport, hmask]
  · exact sendLoop_length port_id port_data 2 msg
  · exact recvList_sendLoop_start port_id port_data msg [] hport hdata
      (by
        intro h
        subst h
        simp at hlen)

/-- Witness for C1 at `port_id = 2`, `port_data = 0x1234`, `msg = [42]`. -/
theorem transport_roundtrip_witness :
    (2 ≤ PORTS_MAX ∧ (0x1234 : Nat) < 65536 ∧
      1 ≤ ([42] : List Nat).length ∧ ([42] : List Nat).length ≤ 8192) ∧
    ∃ frags, Transport.send 2 0x1234 [42] = .ok frags ∧
      frags.length = (([42] : List Nat).length + (PAYLOAD_MAX - 1)) / PAYLOAD_MAX ∧
      Port.recvList [] frags = ([], [(0x1234, [42])]) :=
  ⟨⟨by decide, by decide, by decide, by decide⟩,
    transport_roundtrip 2 0x1234 [42] (by decide) (by decide) (by decide)
      (by decide)⟩

/-! ### Claim C2: fragment metadata and sequencing -/

/-- The `seq` values the claim assigns to an `n`-fragment message:
`SINGLE = 3` when there is one fragment, otherwise `START = 2` first,
`MIDDLE = 0` in between and `STOP = 1` last (spec-side definition,
written from the claim's words). -/
def seqSpecList : Nat → List Nat
  | 0 => []
  | 1 => [3]
  | n + 2 => 2 :: (List.replicate n 0 ++ [1])

theorem sendLoop_cont_map_fst (port_id port_data : Nat) (msg : List Nat)
    (hmsg : msg ≠ []) :
    (sendLoop port_id port_data 0 msg).map Prod.fst =
      (List.replicate ((msg.length + (PAYLOAD_MAX - 1)) / PAYLOAD_MAX - 1) 0
        ++ [1]).map (metadataOf port_data port_id) := by
  unfold sendLoop
  rw [if_neg (by simp_all)]
  split
  · rename_i hlong
    have ih := sendLoop_cont_map_fst port_id port_data (msg.drop PAYLOAD_MAX)
      (by
        intro hd
        have := congrArg List.length hd
        simp only [List.length_drop, List.length_nil] at this
        simp only [PAYLOAD_MAX] at *
        omega)
    simp only [List.map_cons, ih, List.length_drop]
    have hc : (msg.length + (PAYLOAD_MAX - 1)) / PAYLOAD_MAX - 1 =
        ((msg.length - PAYLOAD_MAX + (PAYLOAD_MAX - 1)) / PAYLOAD_MAX - 1) + 1 := by
      simp only [PAYLOAD_MAX] at *
      omega
    rw [hc, List.replicate_succ]
    simp
  · rename_i hshort
    have hc : (msg.length + (PAYLOAD_MAX - 1)) / PAYLOAD_MAX - 1 = 0 := by
      simp only [PAYLOAD_MAX] at *
      have : msg.length ≠ 0 := by simp_all
      omega
    rw [hc]
    simp
termination_by msg.length
decreasing_by
  simp only [List.length_drop]
  simp only [PAYLOAD_MAX] at *
  omega

/-- C2: every fragment of an accepted message carries metadata
`(port_data << 8) | port_id | (seq << 6)` with `seq = SINGLE (3)` for a
single-fragment message, and `seq = START (2)`, `MIDDLE (0)`, ...,
`STOP (1)` for a multi-fragment message; every non-final fragment carries
exactly `PAYLOAD_MAX` payload bytes. -/
theorem transport_send_fragment_metadata (port_id port_data : Nat)
    (msg : List Nat) (hport : port_id ≤ PORTS_MAX) (hdata : port_data < 65536) :
    ∃ frags, Transport.send port_id port_data msg = .ok frags ∧
      frags.map Prod.fst =
        (seqSpecList ((msg.length + (PAYLOAD_MAX - 1)) / PAYLOAD_MAX)).map
          (metadataOf port_data port_id) ∧
      ∀ f ∈ frags.dropLast, f.2.length = PAYLOAD_MAX := by
  have hmask : port_data &&& 0xffff = port_data := by
    have h : (0xffff : Nat) = 2 ^ 16 - 1 := by norm_num
    rw [h, Nat.and_pow_two_sub_one_eq_mod]
    omega
  refine ⟨sendLoop port_id port_data 2 msg, ?_, ?_,
    sendLoop_dropLast_length port_id port_data 2 msg⟩
  · rw [Transport.send, if_pos hport, hmask]
  · unfold sendLoop
    split
    · rename_i hzero
      rw [show (msg.length + (PAYLOAD_MAX - 1)) / PAYLOAD_MAX = 0 from by
        simp only [PAYLOAD_MAX] at *
        omega]
      simp [seqSpecList]
    · split
      · rename_i hzero hlong
        have ih := sendLoop_cont_map_fst port_id port_data
          (msg.drop PAYLOAD_MAX)
          (by
            intro hd
            have := congrArg List.length hd
            simp only [List.length_drop, List.length_nil] at this
            simp only [PAYLOAD_MAX] at *
            omega)
        simp only [List.map_cons, ih, List.length_drop]
        have hc : (msg.length + (PAYLOAD_MAX - 1)) / PAYLOAD_MAX =
            ((msg.length - PAYLOAD_MAX + (PAYLOAD_MAX - 1)) / PAYLOAD_MAX - 1)
              + 2 := by
          simp only [PAYLOAD_MAX] at *
          omega
        rw [hc]
        simp [seqSpecList]
      · rename_i hzero hshort
        rw [show (msg.length + (PAYLOAD_MAX - 1)) / PAYLOAD_MAX = 1 from by
          simp only [PAYLOAD_MAX] at *
          have : msg.length ≠ 0 := by simp_all
          omega]
        simp [seqSpecList]

/-- Witness for C2 at `port_id = 3`, `port_data = 7`, a two-byte message. -/
theorem transport_send_fragment_metadata_witness :
    (3 ≤ PORTS_MAX ∧ (7 : Nat) < 65536) ∧
    ∃ frags, Transport.send 3 7 [10, 11] = .ok frags ∧
      frags.map Prod.fst =
        (seqSpecList ((([10, 11] : List Nat).length + (PAYLOAD_MAX - 1))
          / PAYLOAD_MAX)).map (metadataOf 7 3) ∧
      ∀ f ∈ frags.dropLast, f.2.length = PAYLOAD_MAX :=
  ⟨⟨by decide, by decide⟩,
    transport_send_fragment_metadata 3 7 [10, 11] (by decide) (by decide)⟩

/-! ### Claim C3: event synthesis on port registration -/

/-- The most recent `TX_CONNECTED`/`TX_DISCONNECTED` among an observed
event sequence, `TX_DISCONNECTED` when there is none (spec-side
definition, written from the claim's words). -/
def lastConnEventSpec (events : List Event) : Event :=
  match (events.filter fun e =>
      decide (e = .tx_connected ∨ e = .tx_disconnected)).getLast? with
  | some e => e
  | none => .tx_disconnected

/-- C3: after any sequence of `Transport.on_event` calls,
`Transport.register_port` synthesizes to the new port exactly the most
recent `TX_CONNECTED`/`TX_DISCONNECTED` event observed, and
`TX_DISCONNECTED` when no such event has been observed; other events do
not change what is synthesized. -/
theorem register_port_synthesizes_last_conn_event (events : List Event) :
    Transport.register_port_event (Transport.last_tx_event_after events) =
      lastConnEventSpec events := by
  rw [Transport.register_port_event, Transport.last_tx_event_after,
    lastConnEventSpec]
  induction events using List.reverseRecOn with
  | nil => rfl
  | append_singleton t e ih =>
    rw [List.foldl_append, List.foldl_cons, List.foldl_nil, List.filter_append]
    by_cases hp : e = Event.tx_connected ∨ e = Event.tx_disconnected
    · rw [Transport.on_event_last, if_pos hp]
      have hfe : List.filter (fun x =>
          decide (x = Event.tx_connected ∨ x = Event.tx_disconnected)) [e]
          = [e] := by
        simp [hp]
      rw [hfe, List.getLast?_concat]
    · rw [Transport.on_event_last, if_neg hp]
      have hfe : List.filter (fun x =>
          decide (x = Event.tx_connected ∨ x = Event.tx_disconnected)) [e]
          = [] := by
        simp [hp]
      rw [hfe, List.append_nil]
      exact ih

/-! ### Claim C5: reassembly sequencing behaviour -/

/-- C5 (counterexample): a `STOP` fragment arriving with an empty
reassembly buffer is not dropped: `_Port.on_recv` logs a warning but
still appends it and delivers it as a complete (new) message, refuting
"it is never delivered as, or begins, a new message when the reassembly
buffer is empty". -/
theorem port_recv_stop_empty_buffer_cex :
    Port.on_recv [] (metadataOf 5 0 1) [42] = ([], some (5, [42])) := by
  decide

/-- C5 (amended): a `START`/`SINGLE` fragment (`seq & 2 ≠ 0`) discards
any prior in-progress reassembly before being processed (the result does
not depend on the prior buffer); a `MIDDLE` fragment is appended to the
current buffer whether or not a reassembly is in progress; a `STOP`
fragment completes and delivers the current buffer plus itself, even
when the buffer was empty (with only a logged warning). -/
theorem port_recv_seq_behavior (buf : List (List Nat)) (metadata : Nat)
    (msg : List Nat) :
    (((metadata >>> 6) &&& 0x03) &&& 2 ≠ 0 →
      Port.on_recv buf metadata msg = Port.on_recv [] metadata msg) ∧
    ((metadata >>> 6) &&& 0x03 = 0 →
      Port.on_recv buf metadata msg = (buf ++ [msg], none)) ∧
    ((metadata >>> 6) &&& 0x03 = 1 →
      Port.on_recv buf metadata msg =
        ([], some ((metadata >>> 8) &&& 0xffff, (buf ++ [msg]).flatten))) := by
  refine ⟨?_, ?_, ?_⟩
  · intro h2
    rw [Port.on_recv, Port.on_recv]
    have hl : (if (metadata >>> 6) &&& 0x03 &&& 2 ≠ 0 ∧ buf ≠ [] then
        ([] : List (List Nat)) else buf) =
        (if (metadata >>> 6) &&& 0x03 &&& 2 ≠ 0 ∧ ([] : List (List Nat)) ≠ []
          then [] else []) := by
      rcases eq_or_ne buf [] with hb | hb <;> simp [hb, h2]
    rw [hl]
  · intro h0
    rw [Port.on_recv]
    simp [h0]
  · intro h1
    rw [Port.on_recv]
    simp [h1]

/-- Witness for C5: a `MIDDLE` fragment extends the buffer, and a
`SINGLE` fragment gives the same result whatever was buffered. -/
theorem port_recv_seq_behavior_witness :
    Port.on_recv [[1]] (metadataOf 5 0 0) [2] = ([[1], [2]], none) ∧
    Port.on_recv [[1]] (metadataOf 5 0 3) [2] =
      Port.on_recv [] (metadataOf 5 0 3) [2] :=
  ⟨by
    have h := (port_recv_seq_behavior [[1]] (metadataOf 5 0 0) [2]).2.1
      (by decide)
    simpa using h,
   (port_recv_seq_behavior [[1]] (metadataOf 5 0 3) [2]).1 (by decide)⟩

/-! ### PubSub (`src/pyembc/stream/pubsub.py`)

The topic tree: `_Topic` holds a full topic-path string `self._topic`, a
retained value `self._value` (Python `None` embeds as `Option.none`),
metadata, an insertion-ordered children dict (embedded as an association
list, since Python dicts preserve insertion order), and a subscriber
list.  Values are a type `β` and subscriber callbacks a type `γ`, both
with decidable equality (Python compares them with `==`); every `γ` is
considered callable.  Mutating methods become functions returning the
new tree; calls of subscriber callbacks are collected in lists. -/

/-- Python errors raised by `pubsub.py`, named by the spec's §7 error
taxonomy: `KeyError('topic ... does not exist')` is `NOT_FOUND`,
`ValueError('Topic ... already exists')` is `ALREADY_EXISTS`,
`ValueError('Empty topic not allowed')` and
`ValueError('Invalid boolean value')` keep their own tags.  In this
functional embedding an operation that returns an error has raised
before mutating, so the tree is unchanged by construction. -/
inductive PSError : Type where
  | notFound : PSError
  | alreadyExists : PSError
  | emptyTopic : PSError
  | invalidBool : PSError
deriving DecidableEq, Repr

/-- The values `_as_bool` accepts: Python ints (including bools) or
strings. -/
inductive RawBool : Type where
  | int (n : Int) : RawBool
  | str (s : String) : RawBool

/-- `_as_bool` (pubsub.py lines 19-26): lower-cases strings, maps the
listed falsy/truthy values, raises `ValueError` otherwise (an int is
only equal to the listed values `0` and `1`). -/
def as_bool : RawBool → Except PSError Bool
  | .int n => if n = 0 then .ok false else if n = 1 then .ok true
      else .error .invalidBool
  | .str s =>
    let l := s.toLower
    if l ∈ ["no", "off", "disable", "disabled", "false", "inactive"] then
      .ok false
    else if l ∈ ["yes", "on", "enable", "enabled", "true", "active"] then
      .ok true
    else .error .invalidBool

/-- The metadata dict as used by `PubSub.create`: `default` is
`some x` when `'default' in meta` (the entry `x` itself may be Python
`None`), `retain` is the raw `meta.get('retain', 0)` entry when present. -/
structure TopicMeta (β : Type) : Type where
  dflt : Option (Option β)
  retain : Option RawBool

/-- `_Topic` (pubsub.py lines 29-45). -/
inductive PTopic (β γ : Type) : Type where
  | mk (topic : String) (value : Option β) (meta : Option (TopicMeta β))
      (children : List (String × PTopic β γ)) (subs : List γ)

namespace PTopic

variable {β γ : Type} [DecidableEq β] [DecidableEq γ]

def topic : PTopic β γ → String
  | .mk n _ _ _ _ => n

def value : PTopic β γ → Option β
  | .mk _ v _ _ _ => v

def children : PTopic β γ → List (String × PTopic β γ)
  | .mk _ _ _ cs _ => cs

def subs : PTopic β γ → List γ
  | .mk _ _ _ _ ss => ss

/-- `_Topic.__init__(parent, topic)`: value `None`, no children, no
subscribers. -/
def freshTopic (name : String) : PTopic β γ := .mk name none none [] []

/-- `self.children.get(part)`: dict lookup. -/
def childGet (cs : List (String × PTopic β γ)) (k : String) :
    Option (PTopic β γ) :=
  match cs.find? (fun kc => kc.1 == k) with
  | some kc => some kc.2
  | none => none

/-- `self.children[part] = child`: dict write — replaces in place when
the key exists, appends otherwise (Python dicts preserve insertion
order). -/
def childUpdate (cs : List (String × PTopic β γ)) (k : String)
    (c : PTopic β γ) : List (String × PTopic β γ) :=
  match cs with
  | [] => [(k, c)]
  | (k', c') :: rest =>
    if k' = k then (k, c) :: rest else (k', c') :: childUpdate rest k c

/-- `'/'.join(parts_so_far)`. -/
def joinPath : List String → String
  | [] => ""
  | [p] => p
  | p :: rest => p ++ "/" ++ joinPath rest

/-- Python `str.split(sep)` over the character list: splits at every
separator occurrence, keeping empty pieces (executable replacement for
`String.splitOn`, which does not reduce in the kernel). -/
def splitAux (sep : Char) : List Char → List (List Char)
  | [] => [[]]
  | c :: rest =>
    let r := splitAux sep rest
    if c = sep then [] :: r
    else (c :: r.headD []) :: r.tail

/-- `topic.split('/')`, guarded by `if len(topic):` in `_topic_find`
(the empty topic addresses the root directly). -/
def topicParts (topic : String) : List String :=
  if topic = "" then []
  else (splitAux '/' topic.toList).map (fun cs => String.mk cs)

/-- The subscriber filter of `_Topic.publish` lines 65-68: every
subscriber except `src_cbk` is called as `subscriber(self._topic, x,
retain)`; a call is recorded as `(subscriber, topic, x)`. -/
def filteredNotifs (ss : List γ) (src : Option γ) (tn : String)
    (x : Option β) : List (γ × String × Option β) :=
  ss.filterMap fun s => if some s = src then none else some (s, tn, x)

/-- `PubSub.publish` = `_topic_find(topic, create=True)` followed by
`_Topic.publish(x, retain, src_cbk)` (pubsub.py lines 58-71, 109-148),
fused into one walk down the path.  Intermediate nodes are created as in
`_topic_find`; at the target, a retained publish of an unchanged value
returns early (deduplicated, `none`); otherwise the notified-subscriber
walk from the target back up to the root is collected (the recursion
returns child-level calls first, exactly the `while topic is not None`
upward walk).  Every notification carries the target's `self._topic`. -/
def publishWalk (soFar : List String) (t : PTopic β γ) (parts : List String)
    (x : Option β) (retain : Bool) (src : Option γ) :
    PTopic β γ × Option (String × List (γ × String × Option β)) :=
  match parts, t with
  | [], .mk n v m cs ss =>
    if retain ∧ v = x then (.mk n v m cs ss, none)
    else
      (.mk n (if retain then x else v) m cs ss,
        some (n, filteredNotifs ss src n x))
  | p :: rest, .mk n v m cs ss =>
    let c := match childGet cs p with
      | some c => c
      | none => freshTopic (joinPath (soFar ++ [p]))
    let r := publishWalk (soFar ++ [p]) c rest x retain src
    (.mk n v m (childUpdate cs p r.1) ss,
      r.2.map fun tr => (tr.1, tr.2 ++ filteredNotifs ss src tr.1 x))

mutual

/-- `_publish_new_subscriber` (pubsub.py lines 73-77): children first,
in insertion order, then the node's own retained value if not `None`;
each delivery is `cbk(self._topic, self._value)`. -/
def replay : PTopic β γ → List (String × Option β)
  | .mk n v _ cs _ =>
    replayChildren cs ++ (match v with | none => [] | some x => [(n, some x)])

/-- The `for child in self.children.values()` loop of
`_publish_new_subscriber`. -/
def replayChildren : List (String × PTopic β γ) → List (String × Option β)
  | [] => []
  | (_, c) :: rest => replay c ++ replayChildren rest

end

/-- `if cbk not in self._subscribers: self._subscribers.append(cbk)`
(pubsub.py lines 82-83). -/
def addSub (ss : List γ) (cbk : γ) : List γ :=
  if cbk ∈ ss then ss else ss ++ [cbk]

/-- `PubSub.subscribe` = `_topic_find(topic, create=True)` followed by
`_Topic.subscribe(cbk, skip_retained)` (pubsub.py lines 79-85, 166-177):
add `cbk` to the target's subscriber list if absent, then unless
`skip_retained` replay the subtree's retained values to `cbk`. -/
def subscribeWalk (soFar : List String) (t : PTopic β γ) (parts : List String)
    (cbk : γ) (skip_retained : Bool) :
    PTopic β γ × List (String × Option β) :=
  match parts, t with
  | [], .mk n v m cs ss =>
    (.mk n v m cs (addSub ss cbk),
      if skip_retained then [] else replay (.mk n v m cs (addSub ss cbk)))
  | p :: rest, .mk n v m cs ss =>
    let c := match childGet cs p with
      | some c => c
      | none => freshTopic (joinPath (soFar ++ [p]))
    let r := subscribeWalk (soFar ++ [p]) c rest cbk skip_retained
    (.mk n v m (childUpdate cs p r.1) ss, r.2)

/-- `_topic_find(topic, create=False)` (pubsub.py lines 109-125):
returns the node at the path, or `None`. -/
def findWalk : PTopic β γ → List String → Option (PTopic β γ)
  | t, [] => some t
  | t, p :: rest =>
    match childGet (children t) p with
    | some c => findWalk c rest
    | none => none

/-- `_topic_find(topic, create=True)`: creates every missing node along
the path (each named by `'/'.join(parts_so_far)`) and returns the
updated tree. -/
def createWalk (soFar : List String) (t : PTopic β γ) :
    List String → PTopic β γ
  | [] => t
  | p :: rest =>
    match t with
    | .mk n v m cs ss =>
      let c := match childGet cs p with
        | some c => c
        | none => freshTopic (joinPath (soFar ++ [p]))
      .mk n v m (childUpdate cs p (createWalk (soFar ++ [p]) c rest)) ss

/-- `t.meta = meta` at the node addressed by the path, creating the path
like `_topic_find(create=True)`. -/
def setMetaWalk (soFar : List String) (t : PTopic β γ)
    (parts : List String) (meta : Option (TopicMeta β)) : PTopic β γ :=
  match parts, t with
  | [], .mk n v _ cs ss => .mk n v meta cs ss
  | p :: rest, .mk n v m cs ss =>
    let c := match childGet cs p with
      | some c => c
      | none => freshTopic (joinPath (soFar ++ [p]))
    .mk n v m (childUpdate cs p (setMetaWalk (soFar ++ [p]) c rest meta)) ss

/-- The node a path addresses after `_topic_find(create=True)` (a fresh
node when the path does not exist yet). -/
def subtreeAtCreated (soFar : List String) (t : PTopic β γ) :
    List String → PTopic β γ
  | [] => t
  | p :: rest =>
    subtreeAtCreated (soFar ++ [p])
      (match childGet (children t) p with
        | some c => c
        | none => freshTopic (joinPath (soFar ++ [p]))) rest

end PTopic

namespace PubSub

open PTopic

variable {β γ : Type} [DecidableEq β] [DecidableEq γ]

/-- `PubSub.__init__`: `self._root = _Topic(None, '')`. -/
def init : PTopic β γ := .mk "" none none [] []

/-- `PubSub.publish(topic, value, retain, src_cbk)` (pubsub.py lines
127-148): raises `ValueError` on the empty topic; the `'$'`/`'?'` suffix
branches are all `pass`/todo in the source and have no effect; then
finds/creates the node and publishes.  Returns the new tree and the
subscriber calls made. -/
def publish (root : PTopic β γ) (topic : String) (x : Option β)
    (retain : Bool) (src_cbk : Option γ) :
    Except PSError (PTopic β γ × List (γ × String × Option β)) :=
  if topic = "" then .error .emptyTopic
  else
    let r := publishWalk [] root (topicParts topic) x retain src_cbk
    .ok (r.1, match r.2 with | none => [] | some tr => tr.2)

/-- `PubSub.subscribe(topic, cbk, skip_retained)` (pubsub.py lines
166-177). Returns the new tree and the retained values replayed to
`cbk`. -/
def subscribe (root : PTopic β γ) (topic : String) (cbk : γ)
    (skip_retained : Bool) : PTopic β γ × List (String × Option β) :=
  subscribeWalk [] root (topicParts topic) cbk skip_retained

/-- `PubSub.get(topic)` (pubsub.py lines 154-164): the retained value,
or `KeyError` (`NOT_FOUND`) when the topic does not exist; the tree is
never modified (`create=False`). -/
def get (root : PTopic β γ) (topic : String) : Except PSError (Option β) :=
  match findWalk root (topicParts topic) with
  | none => .error .notFound
  | some t => .ok (value t)

/-- `PubSub.meta(topic, meta)` (pubsub.py lines 150-152). -/
def metaSet (root : PTopic β γ) (topic : String)
    (meta : Option (TopicMeta β)) : PTopic β γ :=
  setMetaWalk [] root (topicParts topic) meta

/-- `PubSub.create(topic, meta, subscriber_cbk)` (pubsub.py lines
188-199): `ValueError` (`ALREADY_EXISTS`) when the topic exists — raised
before any mutation, so the tree, its metadata, retained value and
subscribers are unchanged; otherwise create the node, attach `meta`,
publish `meta['default']` (with `_as_bool(meta.get('retain', 0))`,
`src_cbk = subscriber_cbk`) when present, and subscribe
`subscriber_cbk` when given (replaying retained values).  Returns the
new tree, the publish notifications and the replay to
`subscriber_cbk`. -/
def create (root : PTopic β γ) (topic : String) (meta : Option (TopicMeta β))
    (subscriber_cbk : Option γ) :
    Except PSError
      (PTopic β γ × List (γ × String × Option β) × List (String × Option β)) :=
  match findWalk root (topicParts topic) with
  | some _ => .error .alreadyExists
  | none =>
    let parts := topicParts topic
    let root2 := setMetaWalk [] (createWalk [] root parts) parts meta
    let pubStep : Except PSError (PTopic β γ × List (γ × String × Option β)) :=
      match meta with
      | some m =>
        match m.dflt with
        | some x => do
          let retain ← as_bool (m.retain.getD (.int 0))
          let r := publishWalk [] root2 parts x retain subscriber_cbk
          pure (r.1, match r.2 with | none => [] | some tr => tr.2)
        | none => pure (root2, [])
      | none => pure (root2, [])
    do
      let rn ← pubStep
      match subscriber_cbk with
      | some cbk =>
        let rs := subscribeWalk [] rn.1 parts cbk false
        pure (rs.1, rn.2, rs.2)
      | none => pure (rn.1, rn.2, [])

end PubSub

namespace PTopic

variable {β γ : Type} [DecidableEq β] [DecidableEq γ]

/-! ### Observation functions used by the PubSub theorems

These read off, from a tree and a path, what the walks above act on:
the target node's subscriber list, value and whole subtree (all as
`_topic_find(create=True)` would leave them, a fresh empty node when
missing), and the subscribers of the strict ancestors in the
target-to-root notification order of `_Topic.publish`. -/

/-- The subscribers that `_Topic.publish` notifies at one node: all but
`src_cbk`, in list order. -/
def filteredSubs (ss : List γ) (src : Option γ) : List γ :=
  ss.filterMap fun s => if some s = src then none else some s

/-- Subscriber list of the node a path addresses (`[]` when the node
does not exist yet: created nodes have no subscribers). -/
def subsAtCreated (t : PTopic β γ) : List String → List γ
  | [] => subs t
  | p :: rest =>
    match childGet (children t) p with
    | some c => subsAtCreated c rest
    | none => []

/-- Retained value of the node a path addresses (`none` when the node
does not exist yet). -/
def valueAtCreated (t : PTopic β γ) : List String → Option β
  | [] => value t
  | p :: rest =>
    match childGet (children t) p with
    | some c => valueAtCreated c rest
    | none => none

/-- The subscribers, except `src`, of the strict ancestors of the node a
path addresses, in the target-to-root order in which `_Topic.publish`
walks them. -/
def ancSubs (src : Option γ) (t : PTopic β γ) : List String → List γ
  | [] => []
  | p :: rest =>
    (match childGet (children t) p with
      | some c => ancSubs src c rest
      | none => []) ++ filteredSubs (subs t) src

/-- Add a subscriber to the root node of a (sub)tree. -/
def addSubNode : PTopic β γ → γ → PTopic β γ
  | .mk n v m cs ss, cbk => .mk n v m cs (addSub ss cbk)

mutual

/-- How many retained values named `s` the subtree holds — the number of
times `_publish_new_subscriber` delivers topic `s`. -/
def retainedCount (s : String) : PTopic β γ → Nat
  | .mk n v _ cs _ =>
    retainedCountChildren s cs + (if n = s ∧ v.isSome then 1 else 0)

/-- `retainedCount` over a children list. -/
def retainedCountChildren (s : String) : List (String × PTopic β γ) → Nat
  | [] => 0
  | (_, c) :: rest => retainedCount s c + retainedCountChildren s rest

end

/-! ### Association-list (dict) lemmas -/

theorem childGet_childUpdate (cs : List (String × PTopic β γ)) (k : String)
    (c : PTopic β γ) : childGet (childUpdate cs k c) k = some c := by
  induction cs with
  | nil => simp [childUpdate, childGet]
  | cons hd rest ih =>
    obtain ⟨k', c'⟩ := hd
    rw [childUpdate]
    split
    · simp [childGet]
    · rename_i hk
      rw [childGet, List.find?]
      simp only [show (k' == k) = false from by simpa using hk]
      exact ih

theorem childUpdate_of_childGet (cs : List (String × PTopic β γ)) (k : String)
    (c : PTopic β γ) (h : childGet cs k = some c) : childUpdate cs k c = cs := by
  induction cs with
  | nil => simp [childGet] at h
  | cons hd rest ih =>
    obtain ⟨k', c'⟩ := hd
    rw [childGet, List.find?] at h
    rw [childUpdate]
    by_cases hk : k' = k
    · rw [if_pos hk]
      simp only [show (k' == k) = true from by simpa using hk] at h
      cases h
      rw [hk]
    · rw [if_neg hk]
      simp only [show (k' == k) = false from by simpa using hk] at h
      rw [ih h]

/-! ### `filteredSubs` lemmas -/

theorem filteredNotifs_map_fst (ss : List γ) (src : Option γ) (tn : String)
    (x : Option β) :
    (filteredNotifs ss src tn x).map (fun nf => nf.1) = filteredSubs ss src := by
  induction ss with
  | nil => rfl
  | cons s rest ih =>
    rw [filteredNotifs, List.filterMap_cons, filteredSubs, List.filterMap_cons]
    by_cases hs : some s = src
    · rw [if_pos hs, if_pos hs]
      exact ih
    · rw [if_neg hs, if_neg hs]
      simpa using ih

theorem filteredSubs_none (ss : List γ) : filteredSubs ss none = ss := by
  induction ss with
  | nil => rfl
  | cons s rest ih =>
    rw [filteredSubs, List.filterMap_cons, if_neg (by simp)]
    simpa using ih

theorem not_mem_filteredSubs_self (ss : List γ) (cbk : γ) :
    cbk ∉ filteredSubs ss (some cbk) := by
  induction ss with
  | nil => simp [filteredSubs]
  | cons s rest ih =>
    rw [filteredSubs, List.filterMap_cons]
    by_cases hs : some s = some cbk
    · rw [if_pos hs]
      exact ih
    · rw [if_neg hs]
      intro hmem
      rcases List.mem_cons.mp hmem with h | h
      · exact hs (by rw [h])
      · exact ih h

/-! ### Fresh-node lemmas -/

theorem subsAtCreated_fresh (nm : String) (parts : List String) :
    subsAtCreated (freshTopic (β := β) (γ := γ) nm) parts = [] := by
  cases parts with
  | nil => rfl
  | cons p rest => rfl

theorem valueAtCreated_fresh (nm : String) (parts : List String) :
    valueAtCreated (freshTopic (β := β) (γ := γ) nm) parts = none := by
  cases parts with
  | nil => rfl
  | cons p rest => rfl

theorem ancSubs_fresh (src : Option γ) (nm : String) (parts : List String) :
    ancSubs src (freshTopic (β := β) nm) parts = [] := by
  cases parts with
  | nil => rfl
  | cons p rest => rfl

/-! ### `publishWalk` lemmas -/

/-- When a publish is not deduplicated, the callbacks notified are
exactly the target node's subscribers followed by each ancestor's, in
walk-up order, everywhere omitting `src`. -/
theorem publishWalk_map_fst (soFar : List String) (t : PTopic β γ)
    (parts : List String) (x : Option β) (retain : Bool) (src : Option γ)
    (tn : String) (ns : List (γ × String × Option β))
    (h : (publishWalk soFar t parts x retain src).2 = some (tn, ns)) :
    ns.map (fun nf => nf.1) =
      filteredSubs (subsAtCreated t parts) src ++ ancSubs src t parts := by
  induction parts generalizing soFar t tn ns with
  | nil =>
    obtain ⟨n, v, m, cs, ss⟩ := t
    rw [publishWalk] at h
    split at h
    · simp at h
    · simp only [Option.some.injEq, Prod.mk.injEq] at h
      rw [← h.2, filteredNotifs_map_fst]
      simp [subsAtCreated, ancSubs, subs]
  | cons p rest ih =>
    obtain ⟨n, v, m, cs, ss⟩ := t
    rw [publishWalk] at h
    rw [subsAtCreated, ancSubs]
    simp only [children, subs]
    cases hc : childGet cs p with
    | some c =>
      simp only [hc] at h
      cases hr : (publishWalk (soFar ++ [p]) c rest x retain src).2 with
      | none =>
        rw [hr] at h
        simp at h
      | some tr =>
        rw [hr] at h
        obtain ⟨tn', ns'⟩ := tr
        simp only [Option.map_some', Option.some.injEq, Prod.mk.injEq] at h
        rw [← h.2, List.map_append, filteredNotifs_map_fst,
          ih (soFar ++ [p]) c tn' ns' hr, List.append_assoc]
    | none =>
      simp only [hc] at h
      cases hr : (publishWalk (soFar ++ [p])
          (freshTopic (joinPath (soFar ++ [p]))) rest x retain src).2 with
      | none =>
        rw [hr] at h
        simp at h
      | some tr =>
        rw [hr] at h
        obtain ⟨tn', ns'⟩ := tr
        simp only [Option.map_some', Option.some.injEq, Prod.mk.injEq] at h
        rw [← h.2, List.map_append, filteredNotifs_map_fst,
          ih (soFar ++ [p]) _ tn' ns' hr, subsAtCreated_fresh, ancSubs_fresh]
        simp [filteredSubs]

/-- A deduplicated (early-returning) publish means the publish was
retained and the value at the target (after path creation) already
equals the published value. -/
theorem publishWalk_snd_eq_none (soFar : List String) (t : PTopic β γ)
    (parts : List String) (x : Option β) (retain : Bool) (src : Option γ)
    (h : (publishWalk soFar t parts x retain src).2 = none) :
    retain = true ∧ valueAtCreated t parts = x := by
  induction parts generalizing soFar t with
  | nil =>
    obtain ⟨n, v, m, cs, ss⟩ := t
    rw [publishWalk] at h
    split at h
    · rename_i hcond
      exact ⟨hcond.1, hcond.2⟩
    · simp at h
  | cons p rest ih =>
    obtain ⟨n, v, m, cs, ss⟩ := t
    rw [publishWalk] at h
    rw [valueAtCreated]
    simp only [children]
    cases hc : childGet cs p with
    | some c =>
      simp only [hc] at h
      have hr : (publishWalk (soFar ++ [p]) c rest x retain src).2 = none :=
        Option.map_eq_none.mp h
      exact ih (soFar ++ [p]) c hr
    | none =>
      simp only [hc] at h
      have hr : (publishWalk (soFar ++ [p])
          (freshTopic (joinPath (soFar ++ [p]))) rest x retain src).2 = none :=
        Option.map_eq_none.mp h
      have := ih (soFar ++ [p]) _ hr
      rw [valueAtCreated_fresh] at this
      exact this

/-- If the target node exists and already stores the published value, a
retained publish is a strict no-op: the tree is returned unchanged and
nobody is notified. -/
theorem publishWalk_dedup_noop (soFar : List String) (t n : PTopic β γ)
    (parts : List String) (src : Option γ)
    (hfind : findWalk t parts = some n) :
    publishWalk soFar t parts (value n) true src = (t, none) := by
  induction parts generalizing soFar t with
  | nil =>
    rw [findWalk] at hfind
    cases hfind
    obtain ⟨nn, v, m, cs, ss⟩ := n
    rw [publishWalk, if_pos ⟨rfl, rfl⟩]
  | cons p rest ih =>
    obtain ⟨nn, v, m, cs, ss⟩ := t
    rw [findWalk] at hfind
    simp only [children] at hfind
    cases hc : childGet cs p with
    | some c =>
      rw [hc] at hfind
      rw [publishWalk]
      simp only [hc]
      rw [ih (soFar ++ [p]) c hfind]
      rw [childUpdate_of_childGet cs p c hc]
      rfl
    | none =>
      rw [hc] at hfind
      cases hfind

/-! ### `subscribeWalk` lemmas -/

theorem subsAtCreated_subscribeWalk (soFar : List String) (t : PTopic β γ)
    (parts : List String) (cbk : γ) (skip : Bool) :
    subsAtCreated ((subscribeWalk soFar t parts cbk skip).1) parts =
      addSub (subsAtCreated t parts) cbk := by
  induction parts generalizing soFar t with
  | nil =>
    obtain ⟨n, v, m, cs, ss⟩ := t
    rfl
  | cons p rest ih =>
    obtain ⟨n, v, m, cs, ss⟩ := t
    rw [subscribeWalk]
    simp only
    rw [subsAtCreated, subsAtCreated]
    simp only [children]
    cases hc : childGet cs p with
    | some c =>
      simp only [hc, childGet_childUpdate]
      exact ih (soFar ++ [p]) c
    | none =>
      simp only [hc, childGet_childUpdate]
      rw [ih (soFar ++ [p]) _, subsAtCreated_fresh]

theorem ancSubs_subscribeWalk (soFar : List String) (t : PTopic β γ)
    (parts : List String) (cbk : γ) (skip : Bool) (src : Option γ) :
    ancSubs src ((subscribeWalk soFar t parts cbk skip).1) parts =
      ancSubs src t parts := by
  induction parts generalizing soFar t with
  | nil =>
    obtain ⟨n, v, m, cs, ss⟩ := t
    rfl
  | cons p rest ih =>
    obtain ⟨n, v, m, cs, ss⟩ := t
    rw [subscribeWalk]
    simp only
    rw [ancSubs, ancSubs]
    simp only [children, subs, childGet_childUpdate]
    cases hc : childGet cs p with
    | some c =>
      simp only [hc]
      rw [ih (soFar ++ [p]) c]
    | none =>
      simp only [hc]
      rw [ih (soFar ++ [p]) _, ancSubs_fresh]

theorem subtreeAtCreated_subscribeWalk (soFar : List String) (t : PTopic β γ)
    (parts : List String) (cbk : γ) (skip : Bool) :
    subtreeAtCreated soFar ((subscribeWalk soFar t parts cbk skip).1) parts =
      addSubNode (subtreeAtCreated soFar t parts) cbk := by
  induction parts generalizing soFar t with
  | nil =>
    obtain ⟨n, v, m, cs, ss⟩ := t
    rfl
  | cons p rest ih =>
    obtain ⟨n, v, m, cs, ss⟩ := t
    rw [subscribeWalk]
    simp only
    rw [subtreeAtCreated, subtreeAtCreated]
    simp only [children, childGet_childUpdate]
    cases hc : childGet cs p with
    | some c =>
      simp only [hc]
      exact ih (soFar ++ [p]) c
    | none =>
      simp only [hc]
      exact ih (soFar ++ [p]) _

/-- Replay ignores the subscriber list at the subtree root. -/
theorem replay_addSubNode (t : PTopic β γ) (cbk : γ) :
    replay (addSubNode t cbk) = replay t := by
  obtain ⟨n, v, m, cs, ss⟩ := t
  rfl

/-- The retained values a (non-skipping) subscribe replays are exactly
the post-order traversal of the subtree at the path. -/
theorem subscribeWalk_snd (soFar : List String) (t : PTopic β γ)
    (parts : List String) (cbk : γ) :
    (subscribeWalk soFar t parts cbk false).2 =
      replay (subtreeAtCreated soFar t parts) := by
  induction parts generalizing soFar t with
  | nil =>
    obtain ⟨n, v, m, cs, ss⟩ := t
    rw [subscribeWalk, subtreeAtCreated]
    simp only [if_neg (by simp : ¬False)]
    exact replay_addSubNode (.mk n v m cs ss) cbk
  | cons p rest ih =>
    obtain ⟨n, v, m, cs, ss⟩ := t
    rw [subscribeWalk, subtreeAtCreated]
    simp only [children]
    cases hc : childGet cs p with
    | some c =>
      simp only [hc]
      exact ih (soFar ++ [p]) c
    | none =>
      simp only [hc]
      exact ih (soFar ++ [p]) _

/-! ### `addSub`, `ancSubs` and `replay` counting lemmas -/

theorem mem_addSub (ss : List γ) (cbk : γ) : cbk ∈ addSub ss cbk := by
  rw [addSub]
  split
  · assumption
  · simp

theorem addSub_of_mem {ss : List γ} {cbk : γ} (h : cbk ∈ ss) :
    addSub ss cbk = ss := by
  rw [addSub, if_pos h]

theorem count_addSub_addSub {ss : List γ} {cbk : γ} (h : ss.count cbk = 0) :
    ((addSub (addSub ss cbk) cbk).count cbk) = 1 := by
  rw [addSub_of_mem (mem_addSub ss cbk)]
  rw [addSub, if_neg (by simpa using List.count_eq_zero.mp h)]
  simp [List.count_append, h]

theorem not_mem_ancSubs_self (t : PTopic β γ) (parts : List String) (cbk : γ) :
    cbk ∉ ancSubs (some cbk) t parts := by
  induction parts generalizing t with
  | nil => simp [ancSubs]
  | cons p rest ih =>
    obtain ⟨n, v, m, cs, ss⟩ := t
    rw [ancSubs]
    intro hmem
    rcases List.mem_append.mp hmem with hin | hin
    · cases hc : childGet (children (mk n v m cs ss)) p with
      | some c =>
        rw [hc] at hin
        exact ih c hin
      | none =>
        rw [hc] at hin
        simp at hin
    · exact not_mem_filteredSubs_self _ cbk hin

mutual

/-- `_publish_new_subscriber` delivers each retained value of the
subtree exactly once: the number of deliveries for a topic name equals
the number of retained nodes having that name. -/
theorem replay_countP (s : String) (t : PTopic β γ) :
    (replay t).countP (fun nv => nv.1 == s) = retainedCount s t := by
  cases t with
  | mk n v m cs ss =>
    rw [replay.eq_def, retainedCount.eq_def, List.countP_append,
      replayChildren_countP]
    congr 1
    cases v with
    | none => simp
    | some x =>
      simp only [Option.isSome_some, and_true]
      rw [List.countP_cons]
      by_cases h : n = s <;> simp [h]

theorem replayChildren_countP (s : String) (cs : List (String × PTopic β γ)) :
    (replayChildren cs).countP (fun nv => nv.1 == s) =
      retainedCountChildren s cs := by
  cases cs with
  | nil => rfl
  | cons hd rest =>
    obtain ⟨k, c⟩ := hd
    rw [replayChildren.eq_def, retainedCountChildren.eq_def,
      List.countP_append, replay_countP, replayChildren_countP]

end

end PTopic

open PTopic

variable {β γ : Type} [DecidableEq β] [DecidableEq γ]

/-! ### Claim C4: retained deduplication -/

/-- C4: when the node at `topic` exists and already stores `x`, a
retained publish of `x` is a strict no-op — the tree is returned
unchanged and no subscriber anywhere is invoked — while a non-retained
publish of the same value notifies exactly the subscribers on the path
from the topic to the root (omitting `src`). -/
theorem publish_retained_unchanged_noop (root : PTopic β γ) (topic : String)
    (x : Option β) (src : Option γ) (n : PTopic β γ)
    (hne : topic ≠ "")
    (hfind : findWalk root (topicParts topic) = some n)
    (hv : value n = x) :
    PubSub.publish root topic x true src = .ok (root, []) ∧
    ∀ root' notifs, PubSub.publish root topic x false src = .ok (root', notifs) →
      notifs.map (fun nf => nf.1) =
        filteredSubs (subsAtCreated root (topicParts topic)) src ++
          ancSubs src root (topicParts topic) := by
  constructor
  · rw [PubSub.publish, if_neg hne]
    subst hv
    rw [publishWalk_dedup_noop [] root n (topicParts topic) src hfind]
  · intro root' notifs h
    rw [PubSub.publish, if_neg hne] at h
    cases hr : (publishWalk [] root (topicParts topic) x false src).2 with
    | none =>
      have := (publishWalk_snd_eq_none _ _ _ _ _ _ hr).1
      simp at this
    | some tr =>
      obtain ⟨tn', ns'⟩ := tr
      simp only [hr, Except.ok.injEq, Prod.mk.injEq] at h
      rw [← h.2]
      exact publishWalk_map_fst [] root _ x false src tn' ns' hr

/-- Witness for C4: one topic `"a"` holding `5` with one subscriber;
the retained republish of `5` is a no-op, the non-retained publish
notifies subscriber `1`. -/
theorem publish_retained_unchanged_noop_witness :
    ((("a" : String) ≠ "") ∧
      findWalk (PTopic.mk "" none none [("a", .mk "a" (some 5) none [] [1])] [])
        (topicParts "a") = some (PTopic.mk "a" (some 5) none [] [(1 : Nat)]) ∧
      value (PTopic.mk "a" (some 5) none [] [(1 : Nat)]) = some 5) ∧
    (PubSub.publish (PTopic.mk "" none none
        [("a", .mk "a" (some 5) none [] [1])] []) "a" (some 5) true none =
      .ok (PTopic.mk "" none none [("a", .mk "a" (some 5) none [] [1])] [], []) ∧
    ∀ root' notifs,
      PubSub.publish (PTopic.mk "" none none
        [("a", .mk "a" (some 5) none [] [1])] []) "a" (some 5) false none =
        .ok (root', notifs) →
      notifs.map (fun nf => nf.1) =
        filteredSubs (subsAtCreated (PTopic.mk "" none none
          [("a", .mk "a" (some 5) none [] [1])] []) (topicParts "a")) none ++
          ancSubs none (PTopic.mk "" none none
            [("a", .mk "a" (some 5) none [] [1])] []) (topicParts "a")) :=
  ⟨⟨by decide, by rfl, by rfl⟩,
    publish_retained_unchanged_noop
      (PTopic.mk "" none none [("a", .mk "a" (some 5) none [] [1])] [])
      "a" (some 5) none (PTopic.mk "a" (some 5) none [] [1])
      (by decide) (by rfl) (by rfl)⟩

/-! ### Claim C9: the `src_cbk` originator is omitted -/

/-- C9 (counterexample): subscriber `1` is subscribed at topic `"a"` and
differs from the originator `2`, yet a retained publish of the unchanged
value `5` is deduplicated and notifies nobody — so "every other
subscriber on the path from the topic to the root is notified" does not
hold for every publish. -/
theorem publish_src_cbk_dedup_cex :
    PubSub.publish
        (PTopic.mk "" none none [("a", .mk "a" (some 5) none [] [1])] [])
        "a" (some 5) true (some 2) =
      .ok (PTopic.mk "" none none
        [("a", .mk "a" (some 5) none [] [(1 : Nat)])] ([] : List Nat), []) := by
  rfl

/-- C9 (amended): for every publish naming `cbk` as `src_cbk` that is
not a deduplicated retained publish, `cbk` receives no notification even
when subscribed at the topic or any ancestor, and the notified callbacks
are exactly the other subscribers on the path from the topic to the
root; a deduplicated retained publish notifies no subscriber at all. -/
theorem publish_omits_src_cbk (root : PTopic β γ) (topic : String)
    (x : Option β) (retain : Bool) (cbk : γ)
    (hne : topic ≠ "")
    (hnd : ¬(retain = true ∧ valueAtCreated root (topicParts topic) = x)) :
    ∀ root' notifs,
      PubSub.publish root topic x retain (some cbk) = .ok (root', notifs) →
      (∀ nf ∈ notifs, nf.1 ≠ cbk) ∧
      notifs.map (fun nf => nf.1) =
        filteredSubs (subsAtCreated root (topicParts topic)) (some cbk) ++
          ancSubs (some cbk) root (topicParts topic) := by
  intro root' notifs h
  rw [PubSub.publish, if_neg hne] at h
  cases hr : (publishWalk [] root (topicParts topic) x retain (some cbk)).2 with
  | none => exact absurd (publishWalk_snd_eq_none _ _ _ _ _ _ hr) hnd
  | some tr =>
    obtain ⟨tn', ns'⟩ := tr
    simp only [hr, Except.ok.injEq, Prod.mk.injEq] at h
    have hmap := publishWalk_map_fst [] root _ x retain (some cbk) tn' ns' hr
    rw [← h.2]
    refine ⟨?_, hmap⟩
    intro nf hmem heq
    have hin : nf.1 ∈ ns'.map (fun nf => nf.1) := List.mem_map_of_mem _ hmem
    rw [hmap] at hin
    rcases List.mem_append.mp hin with hin | hin
    · exact not_mem_filteredSubs_self _ cbk (heq ▸ hin)
    · exact not_mem_ancSubs_self root (topicParts topic) cbk (heq ▸ hin)

/-- Witness for C9: a non-retained publish at `"a"` with originator `2`;
subscriber `1` is notified, `2` is not. -/
theorem publish_omits_src_cbk_witness :
    ((("a" : String) ≠ "") ∧
      ¬((false = true) ∧ valueAtCreated (PTopic.mk "" none none
        [("a", .mk "a" (some 5) none [] [1, 2])] []) (topicParts "a")
          = some (5 : Nat)) ∧
      PubSub.publish (PTopic.mk "" none none
          [("a", .mk "a" (some 5) none [] [1, 2])] [])
          "a" (some 5) false (some 2) =
        .ok (PTopic.mk "" none none
          [("a", .mk "a" (some 5) none [] [(1 : Nat), 2])] ([] : List Nat),
          [(1, "a", some 5)])) ∧
    (∀ nf ∈ ([(1, "a", some 5)] : List (Nat × String × Option Nat)),
      nf.1 ≠ 2) ∧
    ([(1, "a", some 5)] : List (Nat × String × Option Nat)).map
        (fun nf => nf.1) =
      filteredSubs (subsAtCreated (PTopic.mk "" none none
        [("a", .mk "a" (some 5) none [] [1, 2])] []) (topicParts "a"))
          (some 2) ++
        ancSubs (some 2) (PTopic.mk "" none none
          [("a", .mk "a" (some 5) none [] [1, 2])] []) (topicParts "a") :=
  ⟨⟨by decide, by simp, by rfl⟩,
    publish_omits_src_cbk
      (PTopic.mk "" none none [("a", .mk "a" (some 5) none [] [1, 2])] [])
      "a" (some 5) false 2 (by decide) (by simp) _ _ (by rfl)⟩

/-! ### Claim C10: subscribing twice -/

/-- C10: subscribing the same callback twice leaves it in the topic's
subscriber list exactly once, so a single subsequent publish notifies it
exactly once (assuming it was not subscribed at the topic or an ancestor
beforehand); the second subscribe does replay the subtree's retained
values again — it returns the same replay list as the first. -/
theorem subscribe_twice_publish_once (root : PTopic β γ) (topic : String)
    (cbk : γ) (x : Option β)
    (hne : topic ≠ "")
    (hcnt : (subsAtCreated root (topicParts topic)).count cbk = 0)
    (hanc : cbk ∉ ancSubs none root (topicParts topic)) :
    (subsAtCreated (PubSub.subscribe (PubSub.subscribe root topic cbk false).1
        topic cbk false).1 (topicParts topic)).count cbk = 1 ∧
    (PubSub.subscribe (PubSub.subscribe root topic cbk false).1 topic cbk
        false).2 = (PubSub.subscribe root topic cbk false).2 ∧
    ∀ root' notifs,
      PubSub.publish (PubSub.subscribe (PubSub.subscribe root topic cbk
        false).1 topic cbk false).1 topic x false none = .ok (root', notifs) →
      notifs.countP (fun nf => nf.1 == cbk) = 1 := by
  have hsub2 : subsAtCreated (PubSub.subscribe (PubSub.subscribe root topic
      cbk false).1 topic cbk false).1 (topicParts topic) =
      addSub (addSub (subsAtCreated root (topicParts topic)) cbk) cbk := by
    rw [PubSub.subscribe, PubSub.subscribe, subsAtCreated_subscribeWalk,
      subsAtCreated_subscribeWalk]
  have hanc2 : ancSubs (γ := γ) none (PubSub.subscribe (PubSub.subscribe root
      topic cbk false).1 topic cbk false).1 (topicParts topic) =
      ancSubs none root (topicParts topic) := by
    rw [PubSub.subscribe, PubSub.subscribe, ancSubs_subscribeWalk,
      ancSubs_subscribeWalk]
  refine ⟨?_, ?_, ?_⟩
  · rw [hsub2]
    exact count_addSub_addSub hcnt
  · rw [PubSub.subscribe, PubSub.subscribe, subscribeWalk_snd,
      subscribeWalk_snd, subtreeAtCreated_subscribeWalk, replay_addSubNode]
  · intro root' notifs h
    rw [PubSub.publish, if_neg hne] at h
    cases hr : (publishWalk [] (PubSub.subscribe (PubSub.subscribe root topic
        cbk false).1 topic cbk false).1 (topicParts topic) x false none).2 with
    | none =>
      have := (publishWalk_snd_eq_none _ _ _ _ _ _ hr).1
      simp at this
    | some tr =>
      obtain ⟨tn', ns'⟩ := tr
      simp only [hr, Except.ok.injEq, Prod.mk.injEq] at h
      have hmap := publishWalk_map_fst [] _ _ x false none tn' ns' hr
      rw [hsub2, hanc2, filteredSubs_none] at hmap
      rw [← h.2]
      have hcp : ns'.countP (fun nf => nf.1 == cbk) =
          (ns'.map (fun nf => nf.1)).countP (fun s => s == cbk) := by
        rw [List.countP_map]
        rfl
      rw [hcp, hmap, List.countP_append]
      have h1 : (addSub (addSub (subsAtCreated root (topicParts topic)) cbk)
          cbk).countP (fun s => s == cbk) = 1 := count_addSub_addSub hcnt
      have h2 : (ancSubs none root (topicParts topic)).countP
          (fun s => s == cbk) = 0 := by
        rw [List.countP_eq_zero]
        intro a ha
        simp only [beq_iff_eq]
        intro he
        subst he
        exact hanc ha
      rw [h1, h2]

/-- Witness for C10 at a fresh tree, topic `"t"`, callback `1`. -/
theorem subscribe_twice_publish_once_witness :
    ((("t" : String) ≠ "") ∧
      (subsAtCreated (PubSub.init (β := Nat) (γ := Nat))
        (topicParts "t")).count 1 = 0 ∧
      (1 : Nat) ∉ ancSubs none (PubSub.init (β := Nat) (γ := Nat))
        (topicParts "t")) ∧
    ((subsAtCreated (PubSub.subscribe (PubSub.subscribe
        (PubSub.init (β := Nat) (γ := Nat)) "t" 1 false).1
        "t" 1 false).1 (topicParts "t")).count 1 = 1 ∧
    (PubSub.subscribe (PubSub.subscribe (PubSub.init (β := Nat) (γ := Nat))
        "t" 1 false).1 "t" 1 false).2 =
      (PubSub.subscribe (PubSub.init (β := Nat) (γ := Nat)) "t" 1 false).2 ∧
    ∀ root' notifs,
      PubSub.publish (PubSub.subscribe (PubSub.subscribe
        (PubSub.init (β := Nat) (γ := Nat)) "t" 1 false).1 "t" 1
        false).1 "t" (some 9) false none = .ok (root', notifs) →
      notifs.countP (fun nf => nf.1 == 1) = 1) :=
  ⟨⟨by decide, by rfl, by decide⟩,
    subscribe_twice_publish_once PubSub.init "t" 1 (some 9)
      (by decide) (by rfl) (by decide)⟩

/-! ### Claim C6: retained replay to a new subscriber -/

/-- C6 (counterexample): the same topic set `{"a", "b"}` built in two
different creation orders replays in two different orders to a fresh
root subscriber — children are visited in dict insertion (creation)
order, so the delivery order is neither topic-name order nor a stable
function of the set of topics. -/
theorem subscribe_retained_order_cex :
    (do
      let r1 ← PubSub.publish (β := Nat) (γ := Nat) PubSub.init "b"
        (some 1) true none
      let r2 ← PubSub.publish r1.1 "a" (some 2) true none
      Except.ok (PubSub.subscribe r2.1 "" 7 false).2) =
      Except.ok [("b", some 1), ("a", some 2)] ∧
    (do
      let r1 ← PubSub.publish (β := Nat) (γ := Nat) PubSub.init "a"
        (some 2) true none
      let r2 ← PubSub.publish r1.1 "b" (some 1) true none
      Except.ok (PubSub.subscribe r2.1 "" 7 false).2) =
      Except.ok [("a", some 2), ("b", some 1)] ∧
    ([("b", some 1), ("a", some 2)] : List (String × Option Nat)) ≠
      [("a", some 2), ("b", some 1)] := by
  refine ⟨by rfl, by rfl, by decide⟩

/-- C6 (amended): a subscribe without `skip_retained` replays exactly
the depth-first post-order traversal of the topic's subtree — children
in dict insertion (creation) order, each node's own retained value after
its children's — and every retained value is replayed exactly once: for
each topic name, the number of deliveries equals the number of retained
nodes of that name in the subtree. -/
theorem subscribe_replays_each_retained_once (root : PTopic β γ)
    (topic : String) (cbk : γ) (root' : PTopic β γ)
    (rep : List (String × Option β))
    (h : PubSub.subscribe root topic cbk false = (root', rep)) :
    rep = replay (subtreeAtCreated [] root (topicParts topic)) ∧
    ∀ s, rep.countP (fun nv => nv.1 == s) =
      retainedCount s (subtreeAtCreated [] root (topicParts topic)) := by
  have h2 : rep = (subscribeWalk [] root (topicParts topic) cbk false).2 := by
    rw [PubSub.subscribe] at h
    exact congrArg Prod.snd h.symm
  rw [subscribeWalk_snd] at h2
  refine ⟨h2, ?_⟩
  intro s
  rw [h2, replay_countP]

/-- Witness for C6 at a tree holding `"a" ↦ 5` and `"a/b" ↦ 6`,
subscribing at `"a"`. -/
theorem subscribe_replays_each_retained_once_witness :
    (PubSub.subscribe (PTopic.mk "" none none
        [("a", .mk "a" (some 5) none [("b", .mk "a/b" (some 6) none [] [])] [])]
        [] : PTopic Nat Nat) "a" 3 false).2 =
      replay (subtreeAtCreated [] (PTopic.mk "" none none
        [("a", .mk "a" (some 5) none [("b", .mk "a/b" (some 6) none [] [])] [])]
        [] : PTopic Nat Nat) (topicParts "a")) ∧
    ∀ s, ((PubSub.subscribe (PTopic.mk "" none none
        [("a", .mk "a" (some 5) none [("b", .mk "a/b" (some 6) none [] [])] [])]
        [] : PTopic Nat Nat) "a" 3 false).2).countP (fun nv => nv.1 == s) =
      retainedCount s (subtreeAtCreated [] (PTopic.mk "" none none
        [("a", .mk "a" (some 5) none [("b", .mk "a/b" (some 6) none [] [])] [])]
        [] : PTopic Nat Nat) (topicParts "a")) :=
  subscribe_replays_each_retained_once
    (PTopic.mk "" none none
      [("a", .mk "a" (some 5) none [("b", .mk "a/b" (some 6) none [] [])] [])]
      [] : PTopic Nat Nat)
    "a" 3 _ _ (by rfl)

/-! ### Claim C8: `get` and `create` error handling -/

/-- C8: `PubSub.get` returns the retained value when the topic exists
and fails with `NOT_FOUND` (Python `KeyError`) when it does not, never
modifying the tree (`_topic_find` is called with `create=False`);
`PubSub.create` of an existing topic fails with `ALREADY_EXISTS`
(Python `ValueError`), raised before any mutation, so the topic's
metadata, retained value and subscribers are unchanged. -/
theorem get_create_error_handling (root : PTopic β γ) (topic : String)
    (meta : Option (TopicMeta β)) (cbk : Option γ) :
    (findWalk root (topicParts topic) = none →
      PubSub.get root topic = .error PSError.notFound) ∧
    ∀ n, findWalk root (topicParts topic) = some n →
      PubSub.get root topic = .ok (value n) ∧
      PubSub.create root topic meta cbk = .error PSError.alreadyExists := by
  constructor
  · intro h
    rw [PubSub.get, h]
  · intro n h
    constructor
    · rw [PubSub.get, h]
    · rw [PubSub.create, h]

/-- Witness for C8: `get` of the unknown `"zz"` fails `NOT_FOUND`; `get`
of the existing `"a"` returns its retained `5`; `create` of `"a"` fails
`ALREADY_EXISTS`. -/
theorem get_create_error_handling_witness :
    (findWalk (PTopic.mk "" none none [("a", .mk "a" (some 5) none [] [])]
        ([] : List Nat)) (topicParts "zz") = none ∧
      PubSub.get (PTopic.mk "" none none [("a", .mk "a" (some 5) none [] [])]
        ([] : List Nat)) "zz" = .error PSError.notFound) ∧
    (findWalk (PTopic.mk "" none none [("a", .mk "a" (some 5) none [] [])]
        ([] : List Nat)) (topicParts "a") =
        some (PTopic.mk "a" (some 5) none [] []) ∧
      PubSub.get (PTopic.mk "" none none [("a", .mk "a" (some 5) none [] [])]
        ([] : List Nat)) "a" = .ok (some 5) ∧
      PubSub.create (PTopic.mk "" none none [("a", .mk "a" (some 5) none [] [])]
        ([] : List Nat)) "a" none none = .error PSError.alreadyExists) :=
  ⟨⟨by rfl,
    (get_create_error_handling (PTopic.mk "" none none
      [("a", .mk "a" (some 5) none [] [])] ([] : List Nat)) "zz" none none).1
      (by rfl)⟩,
   ⟨by rfl,
    (get_create_error_handling (PTopic.mk "" none none
      [("a", .mk "a" (some 5) none [] [])] ([] : List Nat)) "a" none none).2
      (PTopic.mk "a" (some 5) none [] []) (by rfl)⟩⟩

/-! ### PubSubPort codec (`src/pyembc/stream/pubsub_port.py`)

This module has its own `PayloadType` (`NULL = 0`, `CSTR = 1`,
`U32 = 2`, lines 23-26) — distinct from the `NULL = 0`, `U32 = 1`,
`STR = 4`, `JSON = 5`, `BIN = 6` enumeration of `transport.py`.  Values
handled by `_payload_encode` are Python `None`, `str` or `int`. -/

namespace PubSubPort

/-- A value carried over the PubSubPort codec: Python `None`, `str` or
`int` (lines 71-79). -/
inductive PortValue : Type where
  | null : PortValue
  | str (s : String) : PortValue
  | int (n : Int) : PortValue
deriving DecidableEq

/-- `RETAIN = (1 << 4)` (line 29). -/
def RETAIN : Nat := 1 <<< 4

/-- The UTF-8 bytes of a string (`x.encode('utf-8')`). -/
def utf8Bytes (s : String) : List Nat :=
  s.toUTF8.toList.map (fun b => b.toNat)

/-- `struct.pack('<I', x)`: four little-endian bytes. -/
def u32le (n : Nat) : List Nat :=
  [n % 256, n / 256 % 256, n / 65536 % 256, n / 16777216 % 256]

/-- `_payload_encode` (lines 71-79): `None ↦ (NULL = 0, b'')`,
`str ↦ (CSTR = 1, utf-8 + NUL)`, `int in [0, 2^32) ↦ (U32 = 2, 4 bytes
little-endian)`; anything else raises `ValueError`. -/
def _payload_encode : PortValue → Except String (Nat × List Nat)
  | .null => .ok (0, [])
  | .str s => .ok (1, utf8Bytes s ++ [0])
  | .int n =>
    if 0 ≤ n ∧ n < 2 ^ 32 then .ok (2, u32le n.toNat)
    else .error "Unsupported payload"

/-- `_to_null` (lines 50-51): returns `None` whatever the payload. -/
def _to_null (x : List Nat) : Except String PortValue :=
  .ok .null

/-- `_to_u32` (lines 58-61): requires exactly 4 bytes, unpacks
little-endian. -/
def _to_u32 (x : List Nat) : Except String PortValue :=
  if x.length = 4 then
    .ok (.int (Int.ofNat (x.headD 0 + 256 * ((x.drop 1).headD 0) +
      65536 * ((x.drop 2).headD 0) + 16777216 * ((x.drop 3).headD 0))))
  else .error "invalid length"

/-- `_to_cstr` (lines 54-55): the source reads `x[:-1].tobytes.decode`
(note the missing parentheses after `tobytes`), which raises
`AttributeError` on every call; embedded as an unconditional error. -/
def _to_cstr (x : List Nat) : Except String PortValue :=
  .error "AttributeError"

/-- `_PAYLOAD_TYPE_FN` (lines 64-68): dispatch on the dtype code;
a missing key raises `KeyError`. -/
def payload_fn (dtype : Nat) :
    Option (List Nat → Except String PortValue) :=
  match dtype with
  | 0 => some _to_null
  | 1 => some _to_cstr
  | 2 => some _to_u32
  | _ => none

/-- `PubSubPort.send(topic, value)` (lines 104-120): topic bytes are
utf-8 plus NUL (at most 32), `port_data = (payload_type & 0x0f) << 8`,
and the message is `[topic_len - 1] ++ topic_bytes ++ [len(payload)] ++
payload` (at most 256 bytes). -/
def send (topic : String) (value : PortValue) :
    Except String (Nat × List Nat) :=
  let topic_bytes := utf8Bytes topic ++ [0]
  let topic_len := topic_bytes.length
  if 32 < topic_len then .error "topic too long"
  else do
    let pt ← _payload_encode value
    let sz := 1 + topic_len + 1 + pt.2.length
    if 256 < sz then .error "message too long"
    else
      .ok ((pt.1 &&& 0x0f) <<< 8,
        [topic_len - 1] ++ topic_bytes ++ [pt.2.length] ++ pt.2)

/-- `PubSubPort.on_recv(port_data, msg)` (lines 122-135): extracts
`topic_len` from `msg[0] & 0x1f`, `dtype` from `port_data` bits[11:8]
and `retain` from bit 12; on a payload-length mismatch it only logs and
publishes nothing (`none`); otherwise it decodes the payload and would
publish `(topic, value, retain)`.  The utf-8 topic is kept as its byte
slice `msg[1:topic_len]`. -/
def on_recv (port_data : Nat) (msg : List Nat) :
    Except String (Option (List Nat × Bool × PortValue)) :=
  let topic_len := (msg.headD 0 &&& 0x1f) + 1
  let dtype := (port_data >>> 8) &&& 0x0f
  let retain := ((port_data >>> 8) &&& RETAIN) != 0
  let topic := (msg.drop 1).take (topic_len - 1)
  let payload_len := (msg.drop (1 + topic_len)).headD 0
  let payload := msg.drop (2 + topic_len)
  if payload.length ≠ payload_len then .ok none
  else
    match payload_fn dtype with
    | none => .error "KeyError"
    | some f => do
      let x ← f payload
      .ok (some (topic, retain, x))

end PubSubPort

/-! ### Claim C7: dtype codes of the PubSubPort codec -/

/-- C7 (counterexample): in `pubsub_port.py` a u32 value is encoded with
dtype code `2` (code `1` is `CSTR` there), and a null value's payload is
empty, not one zero byte — the claim's codes `1`/one-zero-byte describe
the separate `transport.py` codec, not the cited PubSubPort one. -/
theorem payload_encode_dtype_cex :
    PubSubPort._payload_encode (.int 42) = .ok (2, [42, 0, 0, 0]) ∧
    PubSubPort._payload_encode .null = .ok (0, []) := by
  constructor
  · rfl
  · rfl

/-- C7 (amended): in the PubSubPort codec a u32 value in `[0, 2^32)` is
encoded with dtype code `2` and a 4-byte little-endian payload which
`_to_u32` decodes back to the same value; a null value is encoded with
dtype code `0` and an empty payload which `_to_null` decodes back to
null; and a dtype code placed into `port_data` bits[11:8] by
`PubSubPort.send` (`(dtype & 0x0f) << 8`) is recovered by `on_recv`
(`(port_data >> 8) & 0x0f`). -/
theorem pubsub_port_codec (n : Int) (h0 : 0 ≤ n) (h32 : n < 2 ^ 32) :
    (PubSubPort._payload_encode (.int n) =
        .ok (2, PubSubPort.u32le n.toNat) ∧
      PubSubPort._to_u32 (PubSubPort.u32le n.toNat) = .ok (.int n)) ∧
    (PubSubPort._payload_encode .null = .ok (0, []) ∧
      PubSubPort._to_null [] = .ok .null) ∧
    ∀ dtype, dtype < 16 → (((dtype &&& 0x0f) <<< 8) >>> 8) &&& 0x0f = dtype := by
  refine ⟨⟨?_, ?_⟩, ⟨rfl, rfl⟩, ?_⟩
  · rw [PubSubPort._payload_encode, if_pos ⟨h0, h32⟩]
  · rw [PubSubPort._to_u32, if_pos (by rfl)]
    have hm : n.toNat < 2 ^ 32 := by omega
    refine congrArg (fun z => Except.ok (PubSubPort.PortValue.int z)) ?_
    rw [PubSubPort.u32le]
    simp only [List.headD_cons, List.drop_succ_cons, List.drop_zero,
      Int.ofNat_eq_coe]
    omega
  · intro dtype hd
    have h1 : dtype &&& 0x0f = dtype := by
      have h : (0x0f : Nat) = 2 ^ 4 - 1 := by norm_num
      rw [h, Nat.and_pow_two_sub_one_eq_mod]
      omega
    rw [h1, Nat.shiftLeft_eq, Nat.shiftRight_eq_div_pow]
    have h2 : dtype * 2 ^ 8 / 2 ^ 8 = dtype := by omega
    rw [h2, h1]

/-- Witness for C7 at `n = 42`. -/
theorem pubsub_port_codec_witness :
    ((0 : Int) ≤ 42 ∧ (42 : Int) < 2 ^ 32) ∧
    ((PubSubPort._payload_encode (.int 42) =
        .ok (2, PubSubPort.u32le (Int.toNat 42)) ∧
      PubSubPort._to_u32 (PubSubPort.u32le (Int.toNat 42)) =
        .ok (.int 42)) ∧
    (PubSubPort._payload_encode .null = .ok (0, []) ∧
      PubSubPort._to_null [] = .ok .null) ∧
    ∀ dtype, dtype < 16 →
      (((dtype &&& 0x0f) <<< 8) >>> 8) &&& 0x0f = dtype) :=
  ⟨⟨by decide, by decide⟩, pubsub_port_codec 42 (by decide) (by decide)⟩

end Embc
